/-
Verification of the GuitarToBass VST plugin core (tjolr/VST_Plugins).

Shallow embedding of the pitch-detection / chord-tracking / synthesis core
from Source/PluginProcessor.cpp and Source/PluginProcessor.h.  Floating-point
values are modelled as rationals (every IEEE float is a rational); the two
transcendental library calls the code makes — std::log2 inside
NoteDetector::frequencyToMidiNote / validatePitchCandidate and the float
constant M_PI inside the analog oscillator — are abstracted as explicit
function/value parameters (`log2`, `piQ`), since their float results cannot
be pinned to exact rationals.  Everything else (comparisons, +, *, /, abs,
min/max, ring-buffer updates) is exact rational arithmetic mirroring the
C++ statement by statement.
-/
import Mathlib

namespace GuitarToBass

/-- Round half away from zero, the semantics of C `std::round`. -/
def cround (x : ℚ) : ℤ :=
  if 0 ≤ x then ⌊x + 1/2⌋ else -⌊-x + 1/2⌋

/-- Model of `NoteDetector::frequencyToMidiNote`: `-1` for non-positive frequency,
otherwise `round(69 + 12·log2(f/440))`.  The float `std::log2` is passed in
as the abstract function `log2`. -/
def frequencyToMidiNote (log2 : ℚ → ℚ) (frequency : ℚ) : ℤ :=
  if frequency ≤ 0 then -1
  else cround (69 + 12 * log2 (frequency / 440))

/-- The twelve note names used by `NoteDetector::midiNoteToNoteName`. -/
def noteNames : List String :=
  ["C", "C#", "D", "D#"] ++ ["E", "F", "F#", "G"] ++ ["G#", "A", "A#", "B"]

/-- Model of `NoteDetector::midiNoteToNoteName`. -/
def midiNoteToNoteName (midiNote : ℤ) : String :=
  if midiNote < 0 then "---"
  else
    let octave : ℤ := midiNote / 12 - 1
    let noteIndex : ℕ := (midiNote % 12).toNat
    noteNames.getD noteIndex "" ++ toString octave

/-- Model of `NoteDetector::Note`: frequency, MIDI note, confidence and printable name. -/
structure Note where
  frequency : ℚ
  midiNote : ℤ
  confidence : ℚ
  noteName : String
deriving DecidableEq, Repr

/-- The default `Note()` constructor: invalid note. -/
def Note.default : Note :=
  { frequency := 0, midiNote := -1, confidence := 0, noteName := "" }

/-- The `Note(float freq, float conf)` constructor: derives `midiNote` and
`noteName` from the frequency. -/
def Note.make (log2 : ℚ → ℚ) (freq conf : ℚ) : Note :=
  { frequency := freq
    midiNote := frequencyToMidiNote log2 freq
    confidence := conf
    noteName := midiNoteToNoteName (frequencyToMidiNote log2 freq) }

/-- Model of `ChordRootDetector::ChordInfo`. -/
structure ChordInfo where
  rootNote : Note
  detectedNotes : List Note
  confidence : ℚ
  isStable : Bool
deriving DecidableEq, Repr

/-- The default `ChordInfo()`: invalid root, no notes, unstable. -/
def ChordInfo.default : ChordInfo :=
  { rootNote := Note.default, detectedNotes := [], confidence := 0, isStable := false }

/-- Model of `ChordInfo::isValid`: the MIDI note of the root is non-negative. -/
def ChordInfo.isValid (c : ChordInfo) : Bool := 0 ≤ c.rootNote.midiNote

/-- Model of `ChordRootDetector::findChordRoot`: `std::min_element` over the notes with
comparator `a.frequency < b.frequency` — the first note of minimal frequency;
the default (invalid) note for an empty list. -/
def findChordRoot (notes : List Note) : Note :=
  match notes with
  | [] => Note.default
  | n :: rest =>
      rest.foldl (fun acc x => if x.frequency < acc.frequency then x else acc) n

/-- Mutable state of `ChordRootDetector`.  `stabilityBuffer` is the size-10
ring buffer; `bufferWriteIndex` the next write slot; `bufferFull` whether the
ring has wrapped at least once. -/
structure ChordRootState where
  currentChord : ChordInfo
  stabilityBuffer : List ChordInfo
  bufferWriteIndex : ℕ
  bufferFull : Bool
  currentSampleCount : ℕ
deriving DecidableEq, Repr

/-- Constant `stabilityBufferSize_` (10 analysis windows). -/
def stabilityBufferSize : ℕ := 10

/-- Constant `chordChangeThreshold_` (2 semitones). -/
def chordChangeThreshold : ℤ := 2

/-- The fresh state produced by `ChordRootDetector::reset`. -/
def ChordRootState.reset : ChordRootState :=
  { currentChord := ChordInfo.default
    stabilityBuffer := List.replicate stabilityBufferSize ChordInfo.default
    bufferWriteIndex := 0
    bufferFull := false
    currentSampleCount := 0 }

/-- One buffered snapshot "agrees" with the new chord: both valid with roots
within `chordChangeThreshold` semitones, or both invalid (silent). -/
def agrees (bufferedChord newChord : ChordInfo) : Bool :=
  (bufferedChord.isValid && newChord.isValid
      && |newChord.rootNote.midiNote - bufferedChord.rootNote.midiNote| ≤ chordChangeThreshold)
    || (!bufferedChord.isValid && !newChord.isValid)

/-- The `consistentCount` loop of `ChordRootDetector::isChordStable`. -/
def consistentCount (buffer : List ChordInfo) (newChord : ChordInfo) : ℕ :=
  buffer.foldl
    (fun cnt bufferedChord =>
      if bufferedChord.isValid && newChord.isValid then
        if |newChord.rootNote.midiNote - bufferedChord.rootNote.midiNote|
            ≤ chordChangeThreshold then cnt + 1 else cnt
      else if !bufferedChord.isValid && !newChord.isValid then cnt + 1
      else cnt)
    0

/-- Model of `ChordRootDetector::isChordStable`: requires a full ring buffer and at
least 80% agreement (`consistentCount >= 10 * 0.8f`, i.e. ≥ 8). -/
def isChordStable (s : ChordRootState) (newChord : ChordInfo) : Bool :=
  if !s.bufferFull then false
  else decide (8 ≤ consistentCount s.stabilityBuffer newChord)

/-- Model of `ChordRootDetector::updateStabilityBuffer`: overwrite the current slot,
advance the write index modulo the buffer size, and mark the buffer full when
the index wraps to 0. -/
def updateStabilityBuffer (s : ChordRootState) (chord : ChordInfo) : ChordRootState :=
  let buf := s.stabilityBuffer.set s.bufferWriteIndex chord
  let idx := (s.bufferWriteIndex + 1) % stabilityBufferSize
  { s with
    stabilityBuffer := buf
    bufferWriteIndex := idx
    bufferFull := if idx = 0 then true else s.bufferFull }

/-- The `ChordInfo` freshly built by `ChordRootDetector::analyzeNotes` from
the positive input frequencies, before the stability test. -/
def newChordOf (log2 : ℚ → ℚ) (frequencies : List ℚ) : ChordInfo :=
  let detectedNotes := (frequencies.filter (fun f => 0 < f)).map (fun f => Note.make log2 f 1)
  if detectedNotes.isEmpty then
    { ChordInfo.default with detectedNotes := detectedNotes }
  else
    { rootNote := findChordRoot detectedNotes
      detectedNotes := detectedNotes
      confidence := 1 / (detectedNotes.length : ℚ)
      isStable := false }

/-- Model of `ChordRootDetector::analyzeNotes`: build the new chord, push it into the
stability ring, and commit it as `currentChord_` (marked stable) only if the
stability vote passes; returns the (possibly unchanged) `currentChord_`
together with the updated detector state. -/
def analyzeNotes (log2 : ℚ → ℚ) (s : ChordRootState) (frequencies : List ℚ) :
    ChordInfo × ChordRootState :=
  let s0 := { s with currentSampleCount := s.currentSampleCount + 1 }
  let newChord := newChordOf log2 frequencies
  let s1 := updateStabilityBuffer s0 newChord
  if isChordStable s1 newChord then
    let committed := { newChord with isStable := true }
    (committed, { s1 with currentChord := committed })
  else
    (s1.currentChord, s1)

/-- Constant `minFreq_` of `YINPitchDetector` (70 Hz). -/
def minFreq : ℚ := 70

/-- Constant `maxFreq_` of `YINPitchDetector` (500 Hz). -/
def maxFreq : ℚ := 500

/-- Constant `confidenceThreshold_` of `YINPitchDetector` (0.6). -/
def confidenceThreshold : ℚ := 6/10

/-- Constant `pitchSmoothing_` of `YINPitchDetector` (0.85). -/
def pitchSmoothing : ℚ := 85/100

/-- Constant `minConsecutiveDetections_` of `YINPitchDetector` (3). -/
def minConsecutiveDetections : ℕ := 3

/-- Model of `YINPitchDetector::parabolicInterpolation` over the cumulative
mean-normalized difference buffer.  A boundary `peakIndex` (≤ 0 or at/after
the last index) returns the unrefined integer; otherwise the parabolic
offset `(y3−y1)/(2·(2y2−y1−y3))` is added.  The C++ has no guard on the
denominator. -/
def parabolicInterpolation (cumulativeBuffer : List ℚ) (peakIndex : ℤ) : ℚ :=
  if peakIndex ≤ 0 ∨ (cumulativeBuffer.length : ℤ) - 1 ≤ peakIndex then
    (peakIndex : ℚ)
  else
    let y1 := cumulativeBuffer.getD (peakIndex - 1).toNat 0
    let y2 := cumulativeBuffer.getD peakIndex.toNat 0
    let y3 := cumulativeBuffer.getD (peakIndex + 1).toNat 0
    (peakIndex : ℚ) + (y3 - y1) / (2 * (2 * y2 - y1 - y3))

/-- The refinement step of `parabolicInterpolation` executes the division
`(y3−y1)/(2·(2y2−y1−y3))` with a zero denominator: the boundary guard is not
taken and `2·(2y2−y1−y3) = 0`. -/
def parabolicDivisionByZero (cumulativeBuffer : List ℚ) (peakIndex : ℤ) : Prop :=
  ¬(peakIndex ≤ 0 ∨ (cumulativeBuffer.length : ℤ) - 1 ≤ peakIndex) ∧
    2 * (2 * cumulativeBuffer.getD peakIndex.toNat 0
          - cumulativeBuffer.getD (peakIndex - 1).toNat 0
          - cumulativeBuffer.getD (peakIndex + 1).toNat 0) = 0

instance (cumulativeBuffer : List ℚ) (peakIndex : ℤ) :
    Decidable (parabolicDivisionByZero cumulativeBuffer peakIndex) := by
  unfold parabolicDivisionByZero; infer_instance

/-- The persistent pitch-tracking state of `YINPitchDetector` acted on by the
validation/smoothing tail of `detectPitch` (lines 141–191). -/
structure YinState where
  lastPitch : ℚ
  consecutiveDetections : ℕ
  pitchConfidence : ℚ
deriving DecidableEq, Repr

/-- Model of `YINPitchDetector::validatePitchCandidate`: range check, confidence
check, octave-jump guard relative to `lastPitch_`, and a cent-difference
jitter guard (`1200·log2(ratio)`, via the abstract `log2`). -/
def validatePitchCandidate (log2 : ℚ → ℚ) (s : YinState)
    (frequency confidence : ℚ) : Bool :=
  if frequency < minFreq ∨ maxFreq < frequency then false
  else if confidence < confidenceThreshold then false
  else if 0 < s.lastPitch then
    let pitchRatio := frequency / s.lastPitch
    if (21/10 : ℚ) < pitchRatio ∨ pitchRatio < 48/100 then false
    else
      let centDifference := 1200 * log2 pitchRatio
      if 100 < |centDifference| ∧ confidence < 8/10 then false
      else true
  else true

/-- The validation and smoothing tail of `YINPitchDetector::detectPitch`
(lines 141–191), given the candidate `(frequency, confidence)` produced by
the polyphonic/YIN analysis earlier in the function.  Returns the value
`detectPitch` returns (`lastPitch_` after any update) and the new state. -/
def updatePitchState (log2 : ℚ → ℚ) (s : YinState)
    (frequency confidence : ℚ) : ℚ × YinState :=
  if frequency < minFreq ∨ maxFreq < frequency then
    (s.lastPitch, { s with consecutiveDetections := 0 })
  else if !validatePitchCandidate log2 s frequency confidence then
    (s.lastPitch, { s with consecutiveDetections := 0 })
  else if 0 < frequency ∧ confidenceThreshold < confidence then
    let cd := s.consecutiveDetections + 1
    if minConsecutiveDetections ≤ cd then
      let lp :=
        if 0 < s.lastPitch then
          let pitchDifference := |frequency - s.lastPitch| / s.lastPitch
          let adaptiveSmoothing := if (1/10 : ℚ) < pitchDifference then 3/10 else pitchSmoothing
          s.lastPitch * adaptiveSmoothing + frequency * (1 - adaptiveSmoothing)
        else frequency
      (lp, { lastPitch := lp, consecutiveDetections := cd, pitchConfidence := confidence })
    else
      (s.lastPitch, { s with consecutiveDetections := cd })
  else
    (s.lastPitch, { s with consecutiveDetections := 0 })

/-- Constant: `fftOrder_` is 10, so the FFT size is 1024. -/
def fftSize : ℕ := 1024

/-- Model of `*std::max_element` over the magnitude spectrum (the code only evaluates
it when the peak loop runs, i.e. the spectrum is nonempty). -/
def listMax : List ℚ → ℚ
  | [] => 0
  | x :: xs => xs.foldl max x

/-- The peak-collection loop of `YINPitchDetector::findSpectralPeaks`:
bins `i ∈ [2, size−2)` whose frequency `i·sampleRate/fftSize` lies in the
instrument range, which strictly exceed both neighbours on each side
(5-point local maximum), and which exceed the adaptive threshold
`max(0.1, maxSpectrum·0.12)`; collected in bin order as
(frequency, amplitude) pairs. -/
def rawPeaks (sampleRate : ℚ) (spectrum : List ℚ) : List (ℚ × ℚ) :=
  let binWidth := sampleRate / (fftSize : ℚ)
  let dynamicThreshold := max (1/10) (listMax spectrum * (12/100))
  (List.range spectrum.length).filterMap (fun i =>
    if 2 ≤ i ∧ i + 2 < spectrum.length then
      let frequency := (i : ℚ) * binWidth
      if frequency < minFreq ∨ maxFreq < frequency then none
      else if spectrum.getD (i-1) 0 < spectrum.getD i 0
          ∧ spectrum.getD (i+1) 0 < spectrum.getD i 0
          ∧ spectrum.getD (i-2) 0 < spectrum.getD i 0
          ∧ spectrum.getD (i+2) 0 < spectrum.getD i 0 then
        if dynamicThreshold < spectrum.getD i 0 then
          some (frequency, spectrum.getD i 0)
        else none
      else none
    else none)

/-- Comparator of the `std::sort` call: peaks ordered by amplitude,
strongest first (modelled as the reflexive `b.2 ≤ a.2`, a total order the
unstable `std::sort` refines). -/
def magGE (a b : ℚ × ℚ) : Prop := b.2 ≤ a.2

instance : DecidableRel magGE := fun a b => by unfold magGE; infer_instance

instance : IsTotal (ℚ × ℚ) magGE := ⟨fun a b => le_total b.2 a.2⟩

instance : IsTrans (ℚ × ℚ) magGE := ⟨fun _ _ _ h h' => le_trans h' h⟩

/-- The harmonic test of `findSpectralPeaks`: `frequency` lies within 10 Hz
of 2×, 3×, or 4× one of the already-accepted fundamentals. -/
def isHarmonic (pitches : List ℚ) (frequency : ℚ) : Bool :=
  pitches.any (fun fundamental =>
    ([2, 3, 4] : List ℚ).any (fun harmonic =>
      |frequency - fundamental * harmonic| < 10))

/-- Propositional form of the harmonic test: `frequency` is not within
10 Hz of 2×, 3×, or 4× the fundamental. -/
def notHarmonicOf (fundamental frequency : ℚ) : Prop :=
  ∀ harmonic ∈ ([2, 3, 4] : List ℚ), ¬ |frequency - fundamental * harmonic| < 10

/-- The harmonic-filter loop of `findSpectralPeaks`: walk the
amplitude-sorted peaks, discard harmonics of already-accepted fundamentals,
append the rest, and break as soon as 3 fundamentals are accepted. -/
def harmonicFilter : List (ℚ × ℚ) → List ℚ → List ℚ
  | [], pitches => pitches
  | peak :: rest, pitches =>
      let pitches' := if isHarmonic pitches peak.1 then pitches else pitches ++ [peak.1]
      if 3 ≤ pitches'.length then pitches'
      else harmonicFilter rest pitches'

/-- Model of `YINPitchDetector::findSpectralPeaks`: collect qualifying spectral peaks,
sort by amplitude descending, and harmonic-filter down to ≤ 3 fundamentals. -/
def findSpectralPeaks (sampleRate : ℚ) (spectrum : List ℚ) : List ℚ :=
  harmonicFilter ((rawPeaks sampleRate spectrum).insertionSort magGE) []

/-- Model of the `InstrumentMode` enum. -/
inductive InstrumentMode where
  | AnalogBass
  | SynthBass
  | Piano
deriving DecidableEq, Repr

/-- Constant `wavetableSize_` (1024). -/
def wavetableSize : ℕ := 1024

/-- Constant `envelopeRate_` (0.01). -/
def envelopeRate : ℚ := 1/100

/-- The mutable synthesis state of `MultiInstrumentSynthesizer`. -/
structure SynthState where
  sampleRate : ℚ
  frequency : ℚ
  amplitude : ℚ
  instrumentMode : InstrumentMode
  wavetable : List ℚ
  phase : ℚ
  phaseIncrement : ℚ
  analogPhase : ℚ
  lowPassState : ℚ
  filterCutoff : ℚ
  envelope : ℚ
  envelopeTarget : ℚ
deriving DecidableEq, Repr

/-- Model of `MultiInstrumentSynthesizer::setFrequency`: store the frequency, derive
the phase increment, and retarget the envelope (1 for note-on when the
frequency is positive, 0 otherwise). -/
def setFrequency (s : SynthState) (frequency : ℚ) : SynthState :=
  { s with
    frequency := frequency
    phaseIncrement := frequency / s.sampleRate
    envelopeTarget := if 0 < frequency then 1 else 0 }

/-- Model of `MultiInstrumentSynthesizer::setAmplitude`: clamp to [0, 1]
(`juce::jlimit`). -/
def setAmplitude (s : SynthState) (amplitude : ℚ) : SynthState :=
  { s with amplitude := max 0 (min 1 amplitude) }

/-- Model of `MultiInstrumentSynthesizer::reset`: zero phase, filter state and
envelope. -/
def SynthState.resetVoice (s : SynthState) : SynthState :=
  { s with phase := 0, analogPhase := 0, envelope := 0, lowPassState := 0 }

/-- Model of `MultiInstrumentSynthesizer::getNextSample`: wavetable lookup with
linear interpolation (SynthBass/Piano) or filtered sawtooth (AnalogBass,
which also advances the one-pole low-pass state).  `piQ` is the float
constant `M_PI`. -/
def getNextSample (piQ : ℚ) (s : SynthState) : ℚ × SynthState :=
  match s.instrumentMode with
  | InstrumentMode.SynthBass | InstrumentMode.Piano =>
      let floatIndex := s.phase * (wavetableSize : ℚ)
      let index1 : ℕ := (⌊floatIndex⌋).toNat
      let index2 : ℕ := (index1 + 1) % wavetableSize
      let frac := floatIndex - (index1 : ℚ)
      (s.wavetable.getD index1 0 * (1 - frac) + s.wavetable.getD index2 0 * frac, s)
  | InstrumentMode.AnalogBass =>
      let sawtooth := s.analogPhase / piQ - 1
      let lp := s.lowPassState + (sawtooth - s.lowPassState) * s.filterCutoff
      (lp * (1/2), { s with lowPassState := lp })

/-- The phase-advance tail of the `renderBlock` loop body. -/
def advancePhase (piQ : ℚ) (s : SynthState) : SynthState :=
  match s.instrumentMode with
  | InstrumentMode.SynthBass | InstrumentMode.Piano =>
      let p := s.phase + s.phaseIncrement
      { s with phase := if 1 ≤ p then p - 1 else p }
  | InstrumentMode.AnalogBass =>
      let p := s.analogPhase + s.phaseIncrement * 2 * piQ
      { s with analogPhase := if 2 * piQ ≤ p then p - 2 * piQ else p }

/-- One iteration of the `renderBlock` loop: advance the envelope toward its
target, generate the oscillator sample, scale by envelope and amplitude, and
advance the oscillator phase. -/
def renderSample (piQ : ℚ) (s : SynthState) : ℚ × SynthState :=
  let env := s.envelope + (s.envelopeTarget - s.envelope) * envelopeRate
  let res := getNextSample piQ { s with envelope := env }
  (res.1 * env * s.amplitude, advancePhase piQ res.2)

/-- The `renderBlock` sample loop, producing the output samples in order. -/
def renderBlockLoop (piQ : ℚ) (s : SynthState) : ℕ → List ℚ × SynthState
  | 0 => ([], s)
  | n + 1 =>
      let step := renderSample piQ s
      let rest := renderBlockLoop piQ step.2 n
      (step.1 :: rest.1, rest.2)

/-- Model of `MultiInstrumentSynthesizer::renderBlock`: when the stored amplitude is
≤ 0 the block is filled with silence and nothing else happens; otherwise the
per-sample loop runs. -/
def renderBlock (piQ : ℚ) (s : SynthState) (numSamples : ℕ) : List ℚ × SynthState :=
  if s.amplitude ≤ 0 then (List.replicate numSamples 0, s)
  else renderBlockLoop piQ s numSamples

/-- The synthesizer state after the first `k` iterations of the
`renderBlock` loop. -/
def renderStates (piQ : ℚ) (s : SynthState) : ℕ → SynthState
  | 0 => s
  | k + 1 => (renderSample piQ (renderStates piQ s k)).2

/-- The octave-shift step of `GuitarToBassAudioProcessor::processBlock`:
`finalTargetPitch = currentPitch_ / std::pow(2.0f, octaveShift)`.  The
`octaveShift` parameter takes integer steps 0–4 (NormalisableRange with step
1), for which `std::pow(2, k)` is exact, so the exponent is modelled as ℕ. -/
def finalTargetPitch (currentPitch : ℚ) (octaveShift : ℕ) : ℚ :=
  currentPitch / 2 ^ octaveShift

/-- Model of `GuitarToBassAudioProcessor::prepareToPlay` (current revision,
PluginProcessor.cpp): `pitchAnalysisSize = std::min(512, samplesPerBlock * 2)`. -/
def pitchAnalysisSize (samplesPerBlock : ℤ) : ℤ :=
  min 512 (samplesPerBlock * 2)

/-- Modelled from the spec: the window-size derivation of section 4.1,
“`max(minWindow, 2 × hostBlockSize)`, clamped to a fixed analysis size
(512–2048)” — stated for comparison with the `pitchAnalysisSize` the code
actually computes. -/
def specAnalysisWindowSize (minWindow samplesPerBlock : ℤ) : ℤ :=
  max 512 (min 2048 (max minWindow (2 * samplesPerBlock)))

/-- Concrete scenario data: a chord rooted at MIDI 40 (as produced by more
than 10 consecutive consistent analysis blocks). -/
def consistentChord : ChordInfo :=
  { rootNote := { frequency := 82, midiNote := 40, confidence := 1, noteName := "E2" }
    detectedNotes := [{ frequency := 82, midiNote := 40, confidence := 1, noteName := "E2" }]
    confidence := 1
    isStable := true }

/-- Concrete scenario data: detector state after more than 10 consecutive
blocks all rooted at MIDI 40 — the ring buffer holds ten such snapshots, has
wrapped, and the committed `currentChord_` is that root. -/
def consistentRunState : ChordRootState :=
  { currentChord := consistentChord
    stabilityBuffer := List.replicate stabilityBufferSize consistentChord
    bufferWriteIndex := 3
    bufferFull := true
    currentSampleCount := 14 }

/-- Concrete scenario data: a synthesizer state with positive amplitude used
to instantiate the per-sample rendering theorem. -/
def runningSynthState : SynthState :=
  { sampleRate := 44100, frequency := 110, amplitude := 3/10
    instrumentMode := InstrumentMode.SynthBass
    wavetable := [1/2, 1/4, 0, -1/4], phase := 0, phaseIncrement := 110/44100
    analogPhase := 0, lowPassState := 0, filterCutoff := 3/10
    envelope := 1/2, envelopeTarget := 1 }

/-- Concrete scenario data: a synthesizer state with zero amplitude and an
envelope away from its target. -/
def silencedSynthState : SynthState :=
  { sampleRate := 44100, frequency := 110, amplitude := 0
    instrumentMode := InstrumentMode.SynthBass
    wavetable := [1/2, 1/4, 0, -1/4], phase := 0, phaseIncrement := 110/44100
    analogPhase := 0, lowPassState := 0, filterCutoff := 3/10
    envelope := 1/2, envelopeTarget := 1 }

/-- Helper: the `std::min_element` fold of `findChordRoot` lands on an
element of the list (or the seed) of minimal frequency. -/
theorem foldl_pick_spec (l : List Note) : ∀ (acc : Note),
    (l.foldl (fun acc x => if x.frequency < acc.frequency then x else acc) acc = acc
      ∨ l.foldl (fun acc x => if x.frequency < acc.frequency then x else acc) acc ∈ l) ∧
    (l.foldl (fun acc x => if x.frequency < acc.frequency then x else acc) acc).frequency
        ≤ acc.frequency ∧
    (∀ m ∈ l,
      (l.foldl (fun acc x => if x.frequency < acc.frequency then x else acc) acc).frequency
        ≤ m.frequency) := by
  induction l with
  | nil => intro acc; simp
  | cons x xs ih =>
    intro acc
    simp only [List.foldl_cons]
    obtain ⟨hmem, hacc, hall⟩ := ih (if x.frequency < acc.frequency then x else acc)
    refine ⟨?_, ?_, ?_⟩
    · rcases hmem with h | h
      · rw [h]
        by_cases hx : x.frequency < acc.frequency
        · simp [hx]
        · simp [hx]
      · exact Or.inr (List.mem_cons_of_mem _ h)
    · refine le_trans hacc ?_
      by_cases hx : x.frequency < acc.frequency
      · simp [hx]
        exact le_of_lt hx
      · simp [hx]
    · intro m hm
      rcases List.mem_cons.mp hm with rfl | hm'
      · refine le_trans hacc ?_
        by_cases hx : m.frequency < acc.frequency
        · simp [hx]
        · simp [hx]
          exact le_of_not_lt hx
      · exact hall m hm'

/-- Helper: on a nonempty note list, `findChordRoot` returns a member of the
list whose frequency is minimal. -/
theorem findChordRoot_spec (notes : List Note) (h : notes ≠ []) :
    findChordRoot notes ∈ notes ∧
    ∀ m ∈ notes, (findChordRoot notes).frequency ≤ m.frequency := by
  match notes, h with
  | n :: rest, _ =>
    obtain ⟨hmem, hacc, hall⟩ := foldl_pick_spec rest n
    have hfold : findChordRoot (n :: rest)
        = rest.foldl (fun acc x => if x.frequency < acc.frequency then x else acc) n := rfl
    rw [hfold]
    refine ⟨?_, ?_⟩
    · rcases hmem with h' | h'
      · rw [h']; exact List.mem_cons_self _ _
      · exact List.mem_cons_of_mem _ h'
    · intro m hm
      rcases List.mem_cons.mp hm with rfl | hm'
      · exact hacc
      · exact hall m hm'

/-- C1: when at least one candidate frequency passed to
`ChordRootDetector::analyzeNotes` is positive, the root of the newly formed
chord is the lowest positive candidate frequency; and on every nonempty note
list `findChordRoot` returns a lowest-frequency note of the list. -/
theorem chordRoot_is_lowest (log2 : ℚ → ℚ) (frequencies : List ℚ)
    (h : frequencies.filter (fun f => 0 < f) ≠ []) :
    (newChordOf log2 frequencies).rootNote.frequency
        ∈ frequencies.filter (fun f => 0 < f) ∧
    (∀ g ∈ frequencies.filter (fun f => 0 < f),
        (newChordOf log2 frequencies).rootNote.frequency ≤ g) ∧
    (∀ notes : List Note, notes ≠ [] →
        findChordRoot notes ∈ notes ∧
        ∀ m ∈ notes, (findChordRoot notes).frequency ≤ m.frequency) := by
  have hne : (frequencies.filter (fun f => 0 < f)).map (fun f => Note.make log2 f 1) ≠ [] := by
    simpa using h
  have hchord : (newChordOf log2 frequencies).rootNote =
      findChordRoot ((frequencies.filter (fun f => 0 < f)).map (fun f => Note.make log2 f 1)) := by
    unfold newChordOf
    rw [if_neg (by simpa [List.isEmpty_iff] using hne)]
  obtain ⟨hmem, hmin⟩ := findChordRoot_spec _ hne
  refine ⟨?_, ?_, fun notes hn => findChordRoot_spec notes hn⟩
  · rw [hchord]
    obtain ⟨g, hg, hgeq⟩ := List.mem_map.mp hmem
    have : (Note.make log2 g 1).frequency = g := rfl
    rw [← hgeq, this]
    exact hg
  · intro g hg
    rw [hchord]
    have := hmin (Note.make log2 g 1) (List.mem_map.mpr ⟨g, hg, rfl⟩)
    simpa [Note.make] using this

/-- Witness for C1 on the concrete candidate list [220, 110, −5, 330]:
the positive candidates are [220, 110, 330] and the chord root frequency is
their minimum, 110. -/
theorem chordRoot_is_lowest_witness :
    (([220, 110, -5, 330] : List ℚ).filter (fun f => 0 < f) ≠ []) ∧
    ((newChordOf (fun _ => 0) ([220, 110, -5, 330] : List ℚ)).rootNote.frequency
        ∈ ([220, 110, -5, 330] : List ℚ).filter (fun f => 0 < f) ∧
      ∀ g ∈ ([220, 110, -5, 330] : List ℚ).filter (fun f => 0 < f),
        (newChordOf (fun _ => 0) ([220, 110, -5, 330] : List ℚ)).rootNote.frequency ≤ g) :=
  ⟨by decide,
    ⟨(chordRoot_is_lowest (fun _ => 0) [220, 110, -5, 330] (by decide)).1,
      (chordRoot_is_lowest (fun _ => 0) [220, 110, -5, 330] (by decide)).2.1⟩⟩

/-- Helper: one iteration of the `consistentCount` loop adds 1 exactly when
the buffered snapshot agrees with the new chord. -/
theorem consistentCount_step (nc b : ChordInfo) (cnt : ℕ) :
    (if b.isValid && nc.isValid then
        if |nc.rootNote.midiNote - b.rootNote.midiNote| ≤ chordChangeThreshold
        then cnt + 1 else cnt
      else if !b.isValid && !nc.isValid then cnt + 1 else cnt)
    = cnt + (if agrees b nc then 1 else 0) := by
  unfold agrees
  cases hb : b.isValid <;> cases hn : nc.isValid <;> simp [hb, hn]
  split <;> simp

/-- Helper: `consistentCount` is the number of buffered snapshots that agree
with the new chord. -/
theorem consistentCount_eq_countP (buffer : List ChordInfo) (nc : ChordInfo) :
    consistentCount buffer nc = buffer.countP (fun b => agrees b nc) := by
  suffices h : ∀ (l : List ChordInfo) (acc : ℕ),
      l.foldl
        (fun cnt bufferedChord =>
          if bufferedChord.isValid && nc.isValid then
            if |nc.rootNote.midiNote - bufferedChord.rootNote.midiNote|
                ≤ chordChangeThreshold then cnt + 1 else cnt
          else if !bufferedChord.isValid && !nc.isValid then cnt + 1
          else cnt) acc
        = acc + l.countP (fun b => agrees b nc) by
    simpa [consistentCount] using h buffer 0
  intro l
  induction l with
  | nil => intro acc; simp
  | cons b bs ih =>
      intro acc
      simp only [List.foldl_cons, List.countP_cons]
      rw [consistentCount_step nc b acc, ih]
      by_cases hb : agrees b nc
      all_goals simp [hb]
      all_goals omega

/-- Helper: `updateStabilityBuffer` never touches the committed
`currentChord_`. -/
theorem updateStabilityBuffer_currentChord (s : ChordRootState) (c : ChordInfo) :
    (updateStabilityBuffer s c).currentChord = s.currentChord := rfl

/-- C2: the commit rule of `ChordRootDetector::analyzeNotes`.  With `nc` the
newly formed chord and `s1` the state after pushing `nc` into the ring
buffer: `consistentCount` counts exactly the buffered snapshots that agree
with `nc` (within 2 semitones, or both invalid); if the ring buffer has not
yet been filled once or fewer than 8 of the 10 buffered snapshots agree,
`currentChord_` is unchanged and the previously committed chord is returned
(covering the single-outlier debounce of P4); only when at least 8 agree is
`nc` marked stable and committed as `currentChord_`. -/
theorem chordStability_commit_rule (log2 : ℚ → ℚ) (s : ChordRootState)
    (frequencies : List ℚ) (nc : ChordInfo) (s1 : ChordRootState)
    (hnc : nc = newChordOf log2 frequencies)
    (hs1 : s1 = updateStabilityBuffer
        { s with currentSampleCount := s.currentSampleCount + 1 } nc) :
    (consistentCount s1.stabilityBuffer nc
        = s1.stabilityBuffer.countP (fun b => agrees b nc)) ∧
    ((s1.bufferFull = false ∨ s1.stabilityBuffer.countP (fun b => agrees b nc) < 8) →
        (analyzeNotes log2 s frequencies).2.currentChord = s.currentChord ∧
        (analyzeNotes log2 s frequencies).1 = s.currentChord) ∧
    ((s1.bufferFull = true ∧ 8 ≤ s1.stabilityBuffer.countP (fun b => agrees b nc)) →
        (analyzeNotes log2 s frequencies).2.currentChord = { nc with isStable := true } ∧
        (analyzeNotes log2 s frequencies).1 = { nc with isStable := true }) := by
  subst hnc
  have hdef : analyzeNotes log2 s frequencies =
      if isChordStable s1 (newChordOf log2 frequencies)
      then ({ newChordOf log2 frequencies with isStable := true },
            { s1 with currentChord := { newChordOf log2 frequencies with isStable := true } })
      else (s1.currentChord, s1) := by
    subst hs1; rfl
  refine ⟨consistentCount_eq_countP _ _, ?_, ?_⟩
  · intro h
    have hstable : isChordStable s1 (newChordOf log2 frequencies) = false := by
      unfold isChordStable
      rw [consistentCount_eq_countP]
      rcases h with h | h
      · simp [h]
      · cases hb : s1.bufferFull
        · simp
        · simp only [hb, Bool.not_true, Bool.false_eq_true, if_false,
            decide_eq_false_iff_not]
          omega
    rw [hdef, hstable]
    subst hs1
    exact ⟨rfl, rfl⟩
  · intro h
    have hstable : isChordStable s1 (newChordOf log2 frequencies) = true := by
      unfold isChordStable
      rw [consistentCount_eq_countP]
      simp only [h.1, Bool.not_true, Bool.false_eq_true, if_false, decide_eq_true_eq]
      exact h.2
    rw [hdef, hstable]
    exact ⟨rfl, rfl⟩

/-- Witness for C2, realising the single-outlier debounce of P4: after a run
of more than 10 blocks rooted at MIDI 40, one outlier block (a 200 Hz
candidate mapping to MIDI 69 under the instantiated log2) agrees with only 1
of the 10 buffered snapshots, so `currentChord_` keeps the majority root. -/
theorem chordStability_commit_rule_witness :
    ((updateStabilityBuffer
        { consistentRunState with
            currentSampleCount := consistentRunState.currentSampleCount + 1 }
        (newChordOf (fun _ => 0) [200])).stabilityBuffer.countP
          (fun b => agrees b (newChordOf (fun _ => 0) [200])) < 8) ∧
    (analyzeNotes (fun _ => 0) consistentRunState [200]).2.currentChord
        = consistentRunState.currentChord ∧
    (analyzeNotes (fun _ => 0) consistentRunState [200]).1
        = consistentRunState.currentChord := by
  have hmidi : (newChordOf (fun _ => 0) [200]).rootNote.midiNote = 69 := by
    norm_num [newChordOf, Note.make, findChordRoot, frequencyToMidiNote, cround,
      Int.floor_eq_iff]
  have hagC : agrees consistentChord (newChordOf (fun _ => 0) [200]) = false := by
    simp [agrees, ChordInfo.isValid, consistentChord, hmidi, chordChangeThreshold]
  have hagN : agrees (newChordOf (fun _ => 0) [200]) (newChordOf (fun _ => 0) [200])
      = true := by
    simp [agrees, ChordInfo.isValid, hmidi, chordChangeThreshold]
  have hbuf : (updateStabilityBuffer
      { consistentRunState with
          currentSampleCount := consistentRunState.currentSampleCount + 1 }
      (newChordOf (fun _ => 0) [200])).stabilityBuffer
      = [consistentChord, consistentChord, consistentChord,
         newChordOf (fun _ => 0) [200], consistentChord, consistentChord,
         consistentChord, consistentChord, consistentChord, consistentChord] := rfl
  have hcount : (updateStabilityBuffer
      { consistentRunState with
          currentSampleCount := consistentRunState.currentSampleCount + 1 }
      (newChordOf (fun _ => 0) [200])).stabilityBuffer.countP
        (fun b => agrees b (newChordOf (fun _ => 0) [200])) < 8 := by
    rw [hbuf]
    simp [List.countP_cons, hagC, hagN]
  exact ⟨hcount,
    (chordStability_commit_rule (fun _ => 0) consistentRunState [200]
      (newChordOf (fun _ => 0) [200])
      (updateStabilityBuffer
        { consistentRunState with
            currentSampleCount := consistentRunState.currentSampleCount + 1 }
        (newChordOf (fun _ => 0) [200])) rfl rfl).2.1 (Or.inr hcount)⟩

/-- Helper: a false harmonic test means the frequency is not a 2nd–4th
harmonic of any accepted fundamental. -/
theorem isHarmonic_eq_false_iff (pitches : List ℚ) (f : ℚ) :
    isHarmonic pitches f = false ↔ ∀ a ∈ pitches, notHarmonicOf a f := by
  simp [isHarmonic, notHarmonicOf]

/-- Helper: the harmonic test is monotone in the accepted-fundamental set. -/
theorem isHarmonic_mono {pitches pitches' : List ℚ} (hsub : pitches ⊆ pitches')
    {f : ℚ} (h : isHarmonic pitches f = true) : isHarmonic pitches' f = true := by
  simp only [isHarmonic, List.any_eq_true] at h ⊢
  obtain ⟨a, ha, hp⟩ := h
  exact ⟨a, hsub ha, hp⟩

/-- Helper: unfolding of the harmonic-filter loop on a harmonic peak. -/
theorem harmonicFilter_cons_of_harmonic {pitches : List ℚ} {p : ℚ × ℚ}
    (rest : List (ℚ × ℚ)) (hh : isHarmonic pitches p.1 = true) :
    harmonicFilter (p :: rest) pitches =
      if 3 ≤ pitches.length then pitches else harmonicFilter rest pitches := by
  simp [harmonicFilter, hh]

/-- Helper: unfolding of the harmonic-filter loop on a non-harmonic peak. -/
theorem harmonicFilter_cons_of_not_harmonic {pitches : List ℚ} {p : ℚ × ℚ}
    (rest : List (ℚ × ℚ)) (hh : isHarmonic pitches p.1 = false) :
    harmonicFilter (p :: rest) pitches =
      if 3 ≤ (pitches ++ [p.1]).length then pitches ++ [p.1]
      else harmonicFilter rest (pitches ++ [p.1]) := by
  simp [harmonicFilter, hh]

/-- Helper: the harmonic filter only ever appends to the accepted list. -/
theorem subset_harmonicFilter : ∀ (l : List (ℚ × ℚ)) (pitches : List ℚ),
    pitches ⊆ harmonicFilter l pitches := by
  intro l
  induction l with
  | nil => intro pitches; simp [harmonicFilter]
  | cons p rest ih =>
      intro pitches
      cases hh : isHarmonic pitches p.1
      · rw [harmonicFilter_cons_of_not_harmonic rest hh]
        split
        · exact List.subset_append_left _ _
        · exact (List.subset_append_left _ _).trans (ih _)
      · rw [harmonicFilter_cons_of_harmonic rest hh]
        split
        · exact fun a ha => ha
        · exact ih pitches

/-- Helper: starting from at most 2 accepted fundamentals, the harmonic
filter accepts at most 3. -/
theorem harmonicFilter_length : ∀ (l : List (ℚ × ℚ)) (pitches : List ℚ),
    pitches.length ≤ 2 → (harmonicFilter l pitches).length ≤ 3 := by
  intro l
  induction l with
  | nil => intro pitches h; simp only [harmonicFilter]; omega
  | cons p rest ih =>
      intro pitches h
      cases hh : isHarmonic pitches p.1
      · rw [harmonicFilter_cons_of_not_harmonic rest hh]
        split
        · simp only [List.length_append, List.length_singleton]
          omega
        · next hlt =>
            refine ih _ ?_
            simp only [List.length_append, List.length_singleton] at hlt ⊢
            omega
      · rw [harmonicFilter_cons_of_harmonic rest hh]
        split
        · omega
        · exact ih pitches h

/-- Helper: every fundamental the filter accepts is not a harmonic of any
fundamental accepted before it. -/
theorem harmonicFilter_pairwise : ∀ (l : List (ℚ × ℚ)) (pitches : List ℚ),
    pitches.Pairwise notHarmonicOf → (harmonicFilter l pitches).Pairwise notHarmonicOf := by
  intro l
  induction l with
  | nil => intro pitches h; simpa [harmonicFilter] using h
  | cons p rest ih =>
      intro pitches h
      cases hh : isHarmonic pitches p.1
      · have hpair : (pitches ++ [p.1]).Pairwise notHarmonicOf := by
          rw [List.pairwise_append]
          refine ⟨h, List.pairwise_singleton _ _, ?_⟩
          intro a ha b hb
          rw [List.mem_singleton] at hb
          subst hb
          exact (isHarmonic_eq_false_iff pitches p.1).mp hh a ha
        rw [harmonicFilter_cons_of_not_harmonic rest hh]
        split
        · exact hpair
        · exact ih _ hpair
      · rw [harmonicFilter_cons_of_harmonic rest hh]
        split
        · exact h
        · exact ih pitches h

/-- Helper: as long as fewer than 3 fundamentals were accepted, every
visited peak was either accepted or discarded as a harmonic of fundamentals
accepted at the time (hence of the final accepted set). -/
theorem harmonicFilter_complete : ∀ (l : List (ℚ × ℚ)) (pitches : List ℚ),
    (harmonicFilter l pitches).length < 3 →
    ∀ p ∈ l, p.1 ∈ harmonicFilter l pitches ∨
      isHarmonic (harmonicFilter l pitches) p.1 = true := by
  intro l
  induction l with
  | nil => intro pitches h p hp; simp at hp
  | cons q rest ih =>
      intro pitches h p hp
      cases hh : isHarmonic pitches q.1
      · rw [harmonicFilter_cons_of_not_harmonic rest hh] at h ⊢
        split at h
        · next h3 =>
            split
            · simp only [List.length_append, List.length_singleton] at h h3
              omega
            · next h3' => exact absurd h3 h3'
        · next h3 =>
            split
            · next h3' => exact absurd h3' h3
            · rcases List.mem_cons.mp hp with hpe | hmem
              · refine Or.inl ?_
                rw [hpe]
                exact subset_harmonicFilter rest (pitches ++ [q.1]) (by simp)
              · exact ih _ h p hmem
      · rw [harmonicFilter_cons_of_harmonic rest hh] at h ⊢
        split at h
        · next h3 =>
            split
            · omega
            · next h3' => exact absurd h3 h3'
        · next h3 =>
            split
            · next h3' => exact absurd h3' h3
            · rcases List.mem_cons.mp hp with hpe | hmem
              · refine Or.inr ?_
                rw [hpe]
                exact isHarmonic_mono (subset_harmonicFilter rest pitches) hh
              · exact ih pitches h p hmem

/-- C3: `findSpectralPeaks` accepts at most 3 fundamentals; the qualifying
peaks are visited in descending magnitude order (the amplitude-sorted list
is sorted under `magGE`); every accepted fundamental is not within 10 Hz of
2×, 3×, or 4× any fundamental accepted before it; and (while fewer than 3
were accepted) every qualifying peak is either accepted or lies within
10 Hz of 2–4× an accepted fundamental. -/
theorem findSpectralPeaks_spec (sampleRate : ℚ) (spectrum : List ℚ) :
    (findSpectralPeaks sampleRate spectrum).length ≤ 3 ∧
    ((rawPeaks sampleRate spectrum).insertionSort magGE).Sorted magGE ∧
    findSpectralPeaks sampleRate spectrum
      = harmonicFilter ((rawPeaks sampleRate spectrum).insertionSort magGE) [] ∧
    (findSpectralPeaks sampleRate spectrum).Pairwise notHarmonicOf ∧
    ((findSpectralPeaks sampleRate spectrum).length < 3 →
      ∀ p ∈ (rawPeaks sampleRate spectrum).insertionSort magGE,
        p.1 ∈ findSpectralPeaks sampleRate spectrum ∨
        isHarmonic (findSpectralPeaks sampleRate spectrum) p.1 = true) :=
  ⟨harmonicFilter_length _ _ (by norm_num),
   List.sorted_insertionSort _ _,
   rfl,
   harmonicFilter_pairwise _ _ List.Pairwise.nil,
   fun h p hp => harmonicFilter_complete _ _ h p hp⟩

/-- Witness for C3 on a concrete spectrum with a single qualifying peak at
bin 3 (75 Hz at a 25600 Hz sample rate): the peak is accepted and the
accepted list has fewer than 3 entries. -/
theorem findSpectralPeaks_spec_witness :
    (findSpectralPeaks 25600 [0, 0, 0, 5, 0, 0, 0]).length < 3 ∧
    (∀ p ∈ (rawPeaks 25600 [0, 0, 0, 5, 0, 0, 0]).insertionSort magGE,
        p.1 ∈ findSpectralPeaks 25600 [0, 0, 0, 5, 0, 0, 0] ∨
        isHarmonic (findSpectralPeaks 25600 [0, 0, 0, 5, 0, 0, 0]) p.1 = true) := by
  have hraw : rawPeaks 25600 [0, 0, 0, 5, 0, 0, 0] = [(75, 5)] := by
    norm_num [rawPeaks, fftSize, minFreq, maxFreq, listMax,
      List.range_succ, List.filterMap_append, List.filterMap_cons, List.getD]
  have hlen : (findSpectralPeaks 25600 [0, 0, 0, 5, 0, 0, 0]).length < 3 := by
    unfold findSpectralPeaks
    rw [hraw]
    simp [harmonicFilter, isHarmonic]
  exact ⟨hlen, (findSpectralPeaks_spec 25600 [0, 0, 0, 5, 0, 0, 0]).2.2.2.2 hlen⟩

/-- C4: every `Note` constructed from a frequency `f` and a confidence `c`
has `midiNote = round(69 + 12·log2(f/440))` (the value computed by
`NoteDetector::frequencyToMidiNote`) when `f > 0`, and `midiNote = −1` when
`f ≤ 0`. -/
theorem note_midiNote_from_frequency (log2 : ℚ → ℚ) (f c : ℚ) :
    (Note.make log2 f c).midiNote =
      if 0 < f then cround (69 + 12 * log2 (f / 440)) else -1 := by
  rcases le_or_lt f 0 with h | h
  · simp [Note.make, frequencyToMidiNote, h, not_lt.mpr h]
  · simp [Note.make, frequencyToMidiNote, h, not_le.mpr h]

/-- C5: when the candidate frequency handed to the validation tail of
`YINPitchDetector::detectPitch` lies outside the instrument range
[70 Hz, 500 Hz], the candidate is discarded: the function returns the held
`lastPitch_` and leaves `lastPitch_` unchanged (never zero-filled). -/
theorem detectPitch_out_of_range_holds_lastPitch (log2 : ℚ → ℚ) (s : YinState)
    (frequency confidence : ℚ) (h : frequency < 70 ∨ 500 < frequency) :
    (updatePitchState log2 s frequency confidence).1 = s.lastPitch ∧
    (updatePitchState log2 s frequency confidence).2.lastPitch = s.lastPitch := by
  have h' : frequency < minFreq ∨ maxFreq < frequency := by
    simpa [minFreq, maxFreq] using h
  unfold updatePitchState
  rw [if_pos h']
  exact ⟨rfl, rfl⟩

/-- Witness for C5 at a concrete out-of-range candidate (600 Hz). -/
theorem detectPitch_out_of_range_holds_lastPitch_witness :
    ((600 : ℚ) < 70 ∨ (500 : ℚ) < 600) ∧
    ((updatePitchState (fun _ => 0) ⟨110, 2, 1⟩ 600 1).1 = 110 ∧
      (updatePitchState (fun _ => 0) ⟨110, 2, 1⟩ 600 1).2.lastPitch = 110) :=
  ⟨Or.inr (by norm_num),
    detectPitch_out_of_range_holds_lastPitch (fun _ => 0) ⟨110, 2, 1⟩ 600 1
      (Or.inr (by norm_num))⟩

/-- C6: the synthesizer target frequency in `processBlock` is
`heldPitch / 2^octaveShift`; with `octaveShift = 0` it equals the held pitch
exactly, for every held pitch. -/
theorem octaveShift_zero_exact (currentPitch : ℚ) :
    finalTargetPitch currentPitch 0 = currentPitch := by
  simp [finalTargetPitch]

/-- Counterexample for C8 as stated: at the interior index 2 of the buffer
`[1, 1/20, 1/20, 1/20, 1]` the boundary guard is not taken and the parabolic
refinement divides by `2·(2y2−y1−y3) = 0` — the code has no
division-by-zero guard. -/
theorem parabolic_division_by_zero_counterexample :
    parabolicDivisionByZero [1, 1/20, 1/20, 1/20, 1] 2 := by
  unfold parabolicDivisionByZero
  refine ⟨by decide, ?_⟩
  norm_num [show Int.toNat 2 = 2 from rfl, show Int.toNat (2-1) = 1 from rfl,
    show Int.toNat 3 = 3 from rfl, List.getD_cons_succ, List.getD_cons_zero]

/-- C8 (amended): `parabolicInterpolation` guards the boundary cases
(`peakIndex ≤ 0` or at/after the last buffer index) by returning the
unrefined integer period. -/
theorem parabolic_boundary_guard (cumulativeBuffer : List ℚ) (peakIndex : ℤ)
    (h : peakIndex ≤ 0 ∨ (cumulativeBuffer.length : ℤ) - 1 ≤ peakIndex) :
    parabolicInterpolation cumulativeBuffer peakIndex = peakIndex := by
  unfold parabolicInterpolation
  rw [if_pos h]

/-- Witness for the amended C8 at the concrete boundary index 0. -/
theorem parabolic_boundary_guard_witness :
    ((0 : ℤ) ≤ 0 ∨ (([1, 2, 3] : List ℚ).length : ℤ) - 1 ≤ 0) ∧
    parabolicInterpolation [1, 2, 3] 0 = 0 :=
  ⟨Or.inl le_rfl, parabolic_boundary_guard [1, 2, 3] 0 (Or.inl le_rfl)⟩

/-- Counterexample for C9 as stated: at host block size 1024 the code
computes `min(512, 2·1024) = 512`, while the claimed rule
`clamp(max(minWindow, 2·1024), 512, 2048)` gives 2048. -/
theorem pitchAnalysisSize_counterexample :
    pitchAnalysisSize 1024 = 512 ∧ specAnalysisWindowSize 512 1024 = 2048 ∧
    pitchAnalysisSize 1024 ≠ specAnalysisWindowSize 512 1024 := by
  decide

/-- C9 (amended): the pitch-analysis window size handed to the estimator is
`min(512, 2 × hostBlockSize)`: capped at 512, and equal to twice the block
size for blocks of at most 256 samples. -/
theorem pitchAnalysisSize_formula (samplesPerBlock : ℤ) :
    pitchAnalysisSize samplesPerBlock ≤ 512 ∧
    (256 ≤ samplesPerBlock → pitchAnalysisSize samplesPerBlock = 512) ∧
    (samplesPerBlock ≤ 256 → pitchAnalysisSize samplesPerBlock = samplesPerBlock * 2) := by
  unfold pitchAnalysisSize
  refine ⟨min_le_left _ _, fun h => ?_, fun h => ?_⟩ <;> rw [min_def] <;> split <;> omega

/-- Witness for the amended C9 at the concrete block size 256. -/
theorem pitchAnalysisSize_formula_witness :
    (256 : ℤ) ≤ 256 ∧ pitchAnalysisSize 256 = 512 :=
  ⟨le_rfl, (pitchAnalysisSize_formula 256).2.1 le_rfl⟩

/-- Helper: one render iteration does not change the stored amplitude. -/
theorem renderSample_amplitude (piQ : ℚ) (s : SynthState) :
    (renderSample piQ s).2.amplitude = s.amplitude := by
  obtain ⟨sr, fr, amp, mode, wt, ph, pinc, aph, lps, fc, env, tgt⟩ := s
  cases mode <;> rfl

/-- Helper: one render iteration advances the envelope by exactly
`(target − env) · envelopeRate`. -/
theorem renderSample_envelope (piQ : ℚ) (s : SynthState) :
    (renderSample piQ s).2.envelope =
      s.envelope + (s.envelopeTarget - s.envelope) * envelopeRate := by
  obtain ⟨sr, fr, amp, mode, wt, ph, pinc, aph, lps, fc, env, tgt⟩ := s
  cases mode <;> rfl

/-- Helper: the sample a render iteration emits is the oscillator sample at
the advanced envelope, scaled by that envelope and the amplitude. -/
theorem renderSample_output (piQ : ℚ) (s : SynthState) :
    (renderSample piQ s).1 =
      (getNextSample piQ { s with envelope :=
          s.envelope + (s.envelopeTarget - s.envelope) * envelopeRate }).1
        * (s.envelope + (s.envelopeTarget - s.envelope) * envelopeRate)
        * s.amplitude := rfl

/-- Helper: the state trace commutes with taking one step at the front. -/
theorem renderStates_shift (piQ : ℚ) (s : SynthState) :
    ∀ k, renderStates piQ s (k + 1) = renderStates piQ (renderSample piQ s).2 k := by
  intro k
  induction k with
  | zero => rfl
  | succ k ih =>
      show (renderSample piQ (renderStates piQ s (k + 1))).2 = _
      rw [ih]
      rfl

/-- Helper: the amplitude is constant along the render trace. -/
theorem renderStates_amplitude (piQ : ℚ) (s : SynthState) :
    ∀ k, (renderStates piQ s k).amplitude = s.amplitude := by
  intro k
  induction k with
  | zero => rfl
  | succ k ih =>
      show (renderSample piQ (renderStates piQ s k)).2.amplitude = _
      rw [renderSample_amplitude, ih]

/-- Helper: the render loop emits one sample per iteration, each produced by
`renderSample` at the corresponding trace state, and ends in the trace
state. -/
theorem renderBlockLoop_spec (piQ : ℚ) : ∀ (n : ℕ) (s : SynthState),
    (renderBlockLoop piQ s n).2 = renderStates piQ s n ∧
    (renderBlockLoop piQ s n).1.length = n ∧
    ∀ i, i < n → (renderBlockLoop piQ s n).1.getD i 0
        = (renderSample piQ (renderStates piQ s i)).1 := by
  intro n
  induction n with
  | zero => exact fun s => ⟨rfl, rfl, fun i hi => absurd hi (by omega)⟩
  | succ n ih =>
      intro s
      obtain ⟨h2, hlen, hout⟩ := ih (renderSample piQ s).2
      refine ⟨?_, ?_, ?_⟩
      · show (renderBlockLoop piQ (renderSample piQ s).2 n).2 = _
        rw [h2]
        exact (renderStates_shift piQ s n).symm
      · show ((renderSample piQ s).1
            :: (renderBlockLoop piQ (renderSample piQ s).2 n).1).length = n + 1
        simp [hlen]
      · intro i hi
        cases i with
        | zero => rfl
        | succ j =>
            show ((renderSample piQ s).1
                :: (renderBlockLoop piQ (renderSample piQ s).2 n).1).getD (j + 1) 0 = _
            rw [List.getD_cons_succ, hout j (by omega), renderStates_shift piQ s j]

/-- Counterexample for C7 as stated: a `renderBlock` call made with zero
amplitude renders its samples (as silence) without advancing the envelope at
all — the envelope stays at 1/2 although the claimed per-sample update would
move it toward the target 1. -/
theorem renderBlock_envelope_counterexample :
    (renderBlock 3 silencedSynthState 1).2.envelope = silencedSynthState.envelope ∧
    silencedSynthState.envelope
        + (silencedSynthState.envelopeTarget - silencedSynthState.envelope) * envelopeRate
      ≠ silencedSynthState.envelope := by
  constructor
  · rfl
  · norm_num [silencedSynthState, envelopeRate]

/-- C7 (amended): during a `renderBlock` call made while the stored
amplitude is positive, each of the `numSamples` samples advances the
envelope by `env += (target − env) · envelopeRate` and emits
`oscillator_sample × envelope × amplitude`; and `setFrequency` sets the
envelope target to 1 exactly when the new frequency is positive, else 0. -/
theorem renderBlock_per_sample_spec (piQ : ℚ) (s : SynthState) (n : ℕ)
    (h : 0 < s.amplitude) :
    (renderBlock piQ s n).1.length = n ∧
    (∀ i, i < n →
      (renderStates piQ s (i + 1)).envelope
          = (renderStates piQ s i).envelope
            + ((renderStates piQ s i).envelopeTarget - (renderStates piQ s i).envelope)
              * envelopeRate ∧
      (renderBlock piQ s n).1.getD i 0
          = (getNextSample piQ { renderStates piQ s i with envelope :=
                (renderStates piQ s (i + 1)).envelope }).1
            * (renderStates piQ s (i + 1)).envelope * s.amplitude) ∧
    (∀ f, (setFrequency s f).envelopeTarget = if 0 < f then 1 else 0) := by
  have hb : renderBlock piQ s n = renderBlockLoop piQ s n := by
    unfold renderBlock
    rw [if_neg (not_le.mpr h)]
  obtain ⟨h2, hlen, hout⟩ := renderBlockLoop_spec piQ n s
  rw [hb]
  refine ⟨hlen, ?_, fun f => rfl⟩
  intro i hi
  have henv : (renderStates piQ s (i + 1)).envelope
      = (renderStates piQ s i).envelope
        + ((renderStates piQ s i).envelopeTarget - (renderStates piQ s i).envelope)
          * envelopeRate := by
    show (renderSample piQ (renderStates piQ s i)).2.envelope = _
    exact renderSample_envelope piQ _
  refine ⟨henv, ?_⟩
  rw [hout i hi, renderSample_output, henv]
  simp [renderStates_amplitude]

/-- Witness for the amended C7 on a concrete positive-amplitude state,
rendering 2 samples and checking the envelope advance of the first. -/
theorem renderBlock_per_sample_spec_witness :
    0 < runningSynthState.amplitude ∧
    (renderBlock 3 runningSynthState 2).1.length = 2 ∧
    (renderStates 3 runningSynthState 1).envelope
        = (renderStates 3 runningSynthState 0).envelope
          + ((renderStates 3 runningSynthState 0).envelopeTarget
              - (renderStates 3 runningSynthState 0).envelope) * envelopeRate := by
  have hamp : 0 < runningSynthState.amplitude := by norm_num [runningSynthState]
  exact ⟨hamp, (renderBlock_per_sample_spec 3 runningSynthState 2 hamp).1,
    ((renderBlock_per_sample_spec 3 runningSynthState 2 hamp).2.1 0 (by norm_num)).1⟩

/-- C10: a `renderBlock` call made while the stored amplitude is ≤ 0 writes
every one of the `numSamples` output samples as exactly 0 and leaves the
whole synthesis state (phase, analog phase, envelope, low-pass state, …)
unchanged — the envelope is not advanced at all. -/
theorem renderBlock_silent_when_amplitude_nonpositive (piQ : ℚ) (s : SynthState)
    (numSamples : ℕ) (h : s.amplitude ≤ 0) :
    (renderBlock piQ s numSamples).1 = List.replicate numSamples 0 ∧
    (renderBlock piQ s numSamples).2 = s := by
  unfold renderBlock
  rw [if_pos h]
  exact ⟨rfl, rfl⟩

/-- Witness for C10 on a concrete zero-amplitude state. -/
theorem renderBlock_silent_when_amplitude_nonpositive_witness :
    silencedSynthState.amplitude ≤ 0 ∧
    ((renderBlock 3 silencedSynthState 4).1 = List.replicate 4 0 ∧
      (renderBlock 3 silencedSynthState 4).2 = silencedSynthState) :=
  ⟨le_rfl,
    renderBlock_silent_when_amplitude_nonpositive 3 silencedSynthState 4 le_rfl⟩

end GuitarToBass
